import Mathlib

/-!
Verification of the contest-calendar aggregation and booking core.

The development embeds the Python sources (`fetchers.py`, `database.py`,
`calendar_manager.py`, `tools.py`) as executable Lean definitions:

* a civil-time model (`DTime`, `toSec`, `dtFromAbs`, `isoOff`) mirroring the
  behaviour of `datetime` with `timezone.utc` at whole-second granularity;
* byte-wise string comparison (`textLt`) mirroring SQLite's BINARY collation
  on the ASCII ISO strings the program stores;
* the three source adapters' normalization logic and `fetch_all`;
* the SQLite-backed store (`DB`, `save_contests`, `get_upcoming_contests`,
  `save_calendar_event`, `is_contest_in_calendar`, `get_preference`);
* the Google-calendar request construction and the MCP tool entry points,
  with the external calendar client's replies passed in as parameters and
  clock reads passed in as explicit instants.
-/

/-! ## Civil time model -/

/-- Gregorian leap-year test, as `calendar.isleap` / `datetime` use it. -/
def isLeap (y : Nat) : Bool :=
  (y % 4 == 0 && y % 100 != 0) || y % 400 == 0

/-- Length in days of a year with the given leap flag. -/
def yearLenB (leap : Bool) : Nat :=
  if leap then 366 else 365

/-- Days in month `m` (1-12) of a year with the given leap flag; 0 otherwise. -/
def daysInMonth (leap : Bool) (m : Nat) : Nat :=
  match m with
  | 1 => 31 | 2 => if leap then 29 else 28 | 3 => 31 | 4 => 30
  | 5 => 31 | 6 => 30 | 7 => 31 | 8 => 31
  | 9 => 30 | 10 => 31 | 11 => 30 | 12 => 31
  | _ => 0

/-- Days in the months `1..m-1` of a year with the given leap flag. -/
def daysBeforeMonth (leap : Bool) : Nat → Nat
  | 0 => 0
  | m + 1 => daysBeforeMonth leap m + daysInMonth leap m

/-- Days in the years `0..y-1` of the proleptic Gregorian calendar:
365 per year plus the number of leap years below `y`. -/
def daysBeforeYear (y : Nat) : Nat :=
  365 * y + (y + 3) / 4 - (y + 99) / 100 + (y + 399) / 400

/-- A wall-clock date and time, the shape `datetime.datetime` exposes
(whole seconds; the sources only produce whole-second instants). -/
structure DTime where
  year : Nat
  month : Nat
  day : Nat
  hour : Nat
  minute : Nat
  second : Nat
deriving DecidableEq, Repr

/-- Field ranges a `datetime.datetime` value always satisfies (year capped at
9999 as in CPython; year 0 is allowed internally for day-number arithmetic). -/
def ValidDT (t : DTime) : Prop :=
  t.year ≤ 9999 ∧ 1 ≤ t.month ∧ t.month ≤ 12 ∧ 1 ≤ t.day ∧
    t.day ≤ daysInMonth (isLeap t.year) t.month ∧
    t.hour < 24 ∧ t.minute < 60 ∧ t.second < 60

instance (t : DTime) : Decidable (ValidDT t) := by
  unfold ValidDT; infer_instance

/-- Absolute second count of a wall-clock value (seconds from 0000-01-01). -/
def toSec (t : DTime) : Nat :=
  86400 * (daysBeforeYear t.year + daysBeforeMonth (isLeap t.year) t.month + (t.day - 1))
    + 3600 * t.hour + 60 * t.minute + t.second

/-- Find the year containing absolute day `d`, starting the scan at year `y`;
returns the year and the day offset inside it.  Fuel-driven so that the
kernel can evaluate it. -/
def yearLoopF : Nat → Nat → Nat → Nat × Nat
  | 0, y, d => (y, d)
  | fuel + 1, y, d =>
    if d < yearLenB (isLeap y) then (y, d)
    else yearLoopF fuel (y + 1) (d - yearLenB (isLeap y))

/-- Find the month containing day-of-year `d`, starting the scan at month `m`. -/
def monthLoopF : Nat → Bool → Nat → Nat → Nat × Nat
  | 0, _, m, d => (m, d)
  | fuel + 1, leap, m, d =>
    if d < daysInMonth leap m then (m, d)
    else monthLoopF fuel leap (m + 1) (d - daysInMonth leap m)

/-- Convert an absolute second count back to a wall-clock value; this is the
model of `datetime.fromtimestamp(_, tz=timezone.utc)` shifted to the
absolute epoch.  The year scan starts at the underestimate `days / 366`, so
32 steps of fuel cover every representable year. -/
def dtFromAbs (n : Nat) : DTime :=
  let days := n / 86400
  let y0 := days / 366
  let p := yearLoopF 32 y0 (days - daysBeforeYear y0)
  let q := monthLoopF 12 (isLeap p.1) 1 p.2
  ⟨p.1, q.1, q.2 + 1, n % 86400 / 3600, n % 86400 % 3600 / 60, n % 86400 % 60⟩

/-- Absolute second count of the Unix epoch 1970-01-01T00:00:00Z. -/
def unixAbsSec : Nat := 86400 * daysBeforeYear 1970

/-- `datetime.fromtimestamp(n, tz=timezone.utc)` for a Unix timestamp `n`. -/
def dtFromUnix (n : Nat) : DTime := dtFromAbs (unixAbsSec + n)

/-- Largest representable absolute second count (year 9999 bound). -/
def maxAbs : Nat := 86400 * daysBeforeYear 10000

/-! ## ISO-8601 rendering (the exact output of `datetime.isoformat()` on the
whole-second aware values this program builds) -/

/-- The ASCII digit character for `k % 10`. -/
def dig (k : Nat) : Char := Char.ofNat (48 + k % 10)

/-- Two-digit zero-padded rendering of `n < 100`. -/
def dig2 (n : Nat) : List Char := [dig (n / 10), dig n]

/-- Four-digit zero-padded rendering of `n < 10000`. -/
def dig4 (n : Nat) : List Char := [dig (n / 1000), dig (n / 100), dig (n / 10), dig n]

/-- The date-time body of `isoformat()`: `YYYY-MM-DDTHH:MM:SS`. -/
def isoBaseChars (t : DTime) : List Char :=
  dig4 t.year ++ '-' :: (dig2 t.month ++ '-' :: (dig2 t.day ++ 'T' ::
    (dig2 t.hour ++ ':' :: (dig2 t.minute ++ ':' :: dig2 t.second))))

/-- `isoformat()` of an aware value whose fixed offset is `off` minutes east
(only non-negative offsets occur in this program's data). -/
def isoOff (t : DTime) (off : Nat) : String :=
  String.mk (isoBaseChars t ++ '+' :: (dig2 (off / 60) ++ ':' :: dig2 (off % 60)))

/-- `isoformat()` of an aware UTC value: body plus `+00:00`. -/
def isoUTC (t : DTime) : String := isoOff t 0

/-! ## SQLite BINARY collation on TEXT (byte-wise comparison; the stored
strings are pure ASCII, so byte order is codepoint order) -/

/-- Byte-wise strict comparison of character lists. -/
def textLtL : List Char → List Char → Bool
  | [], [] => false
  | [], _ :: _ => true
  | _ :: _, [] => false
  | a :: as, b :: bs => a.toNat < b.toNat || (a.toNat == b.toNat && textLtL as bs)

/-- SQLite's `<` on TEXT values under the default BINARY collation. -/
def textLt (a b : String) : Bool := textLtL a.data b.data

/-! ## Parsing (`datetime.fromisoformat`, restricted to the offset-bearing
grammar `YYYY-MM-DDTHH:MM:SS+HH:MM` the CodeChef feed and the store emit) -/

/-- Numeric value of an ASCII digit character. -/
def digitVal (c : Char) : Option Nat :=
  if 48 ≤ c.toNat ∧ c.toNat ≤ 57 then some (c.toNat - 48) else none

/-- Combine four digit characters into a number. -/
def num4 (a b c d : Char) : Option Nat := do
  let a ← digitVal a; let b ← digitVal b; let c ← digitVal c; let d ← digitVal d
  pure (1000 * a + 100 * b + 10 * c + d)

/-- Combine two digit characters into a number. -/
def num2 (a b : Char) : Option Nat := do
  let a ← digitVal a; let b ← digitVal b
  pure (10 * a + b)

/-- `datetime.fromisoformat` on the aware whole-second grammar
`YYYY-MM-DDTHH:MM:SS+HH:MM`; yields the wall-clock value and the offset in
minutes, and fails (as the Python call raises `ValueError`) on anything
else, including out-of-range fields. -/
def parseISO (s : String) : Option (DTime × Nat) :=
  match s.data with
  | [y1, y2, y3, y4, '-', m1, m2, '-', d1, d2, 'T',
     h1, h2, ':', mi1, mi2, ':', s1, s2, '+', o1, o2, ':', o3, o4] => do
    let y ← num4 y1 y2 y3 y4
    let mo ← num2 m1 m2
    let d ← num2 d1 d2
    let h ← num2 h1 h2
    let mi ← num2 mi1 mi2
    let sec ← num2 s1 s2
    let oh ← num2 o1 o2
    let om ← num2 o3 o4
    let t : DTime := ⟨y, mo, d, h, mi, sec⟩
    if 1 ≤ y ∧ ValidDT t ∧ oh ≤ 23 ∧ om ≤ 59 then
      some (t, 60 * oh + om)
    else none
  | _ => none

/-- `int(s)` on a non-empty all-digit string (the CodeChef duration field). -/
def parseNat (s : String) : Option Nat :=
  if s.data = [] then none
  else s.data.foldl (fun acc c => do
    let a ← acc; let d ← digitVal c; pure (10 * a + d)) (some 0)

/-- The UTC instant (absolute seconds) denoted by an offset-aware wall-clock
value: wall seconds minus the offset. -/
def instantOf (t : DTime) (off : Nat) : Nat := toSec t - 60 * off

/-- The instant denoted by a stored ISO string, when it parses. -/
def instantOfStr (s : String) : Option Nat :=
  (parseISO s).map fun p => instantOf p.1 p.2

/-! ## Source adapters (`fetchers.py`) -/

/-- A normalized contest record as the adapters emit it (a dict in the
source; `fetched_at` is stamped later by the store). -/
structure Fetched where
  id : String
  platform : String
  title : String
  start_time : String
  duration_seconds : Nat
  url : String
deriving DecidableEq, Repr

/-- One entry of the Codeforces `contest.list` payload. -/
structure CFEntry where
  cfId : Nat
  name : String
  phase : String
  startTimeSeconds : Nat
  durationSeconds : Nat
deriving DecidableEq, Repr

/-- Per-entry normalization inside `fetch_codeforces`: keep `BEFORE`-phase
entries, convert the Unix start to a UTC instant, render it. -/
def normalize_codeforces (e : CFEntry) : Option Fetched :=
  if e.phase == "BEFORE" then
    some ⟨"codeforces_" ++ toString e.cfId, "Codeforces", e.name,
      isoUTC (dtFromUnix e.startTimeSeconds), e.durationSeconds,
      "https://codeforces.com/contest/" ++ toString e.cfId⟩
  else none

/-- One entry of the LeetCode GraphQL `allContests` payload. -/
structure LCEntry where
  title : String
  titleSlug : String
  startTime : Nat
  duration : Nat
deriving DecidableEq, Repr

/-- Per-entry normalization inside `fetch_leetcode`: keep entries whose
start is strictly after the fetch-time clock read `nowUnix`. -/
def normalize_leetcode (nowUnix : Nat) (e : LCEntry) : Option Fetched :=
  if nowUnix < e.startTime then
    some ⟨"leetcode_" ++ e.titleSlug, "LeetCode", e.title,
      isoUTC (dtFromUnix e.startTime), e.duration,
      "https://leetcode.com/contest/" ++ e.titleSlug⟩
  else none

/-- One entry of the CodeChef `future_contests` payload. -/
structure CCEntry where
  contest_code : String
  contest_name : String
  contest_start_date_iso : String
  contest_duration : String
deriving DecidableEq, Repr

/-- Per-entry normalization inside `fetch_codechef`: parse the offset-bearing
ISO start, convert it to UTC, convert the whole-minute duration to seconds;
`none` models the per-entry `except ... continue` skip. -/
def normalize_codechef (e : CCEntry) : Option Fetched :=
  match parseISO e.contest_start_date_iso with
  | none => none
  | some (t, off) =>
    match parseNat e.contest_duration with
    | none => none
    | some mins =>
      some ⟨"codechef_" ++ e.contest_code, "CodeChef", e.contest_name,
        isoUTC (dtFromAbs (instantOf t off)), mins * 60,
        "https://www.codechef.com/" ++ e.contest_code⟩

/-- `fetch_codechef`'s loop over `future_contests`. -/
def codechefBatch (es : List CCEntry) : List Fetched :=
  es.filterMap normalize_codechef

/-- The value a finished adapter branch hands to `asyncio.gather`: either a
record list or a raised exception (`return_exceptions=True`). -/
def gatherPart : Except String (List Fetched) → List Fetched
  | .ok l => l
  | .error _ => []

/-- `ContestFetcher.fetch_all`: gather the three branches, keep the results
that are lists (`isinstance(result, list)`), concatenate in branch order. -/
def fetch_all (r1 r2 r3 : Except String (List Fetched)) : List Fetched :=
  gatherPart r1 ++ gatherPart r2 ++ gatherPart r3

/-- A raw upstream entry of any of the three sources, for statements that
range over everything the adapters can produce. -/
inductive RawEntry where
  | cf (e : CFEntry)
  | lc (e : LCEntry)
  | cc (e : CCEntry)
deriving DecidableEq

/-- Dispatch an entry to its platform's normalization. -/
def normalizeEntry (nowUnix : Nat) : RawEntry → Option Fetched
  | .cf e => normalize_codeforces e
  | .lc e => normalize_leetcode nowUnix e
  | .cc e => normalize_codechef e

/-- The UTC instant an entry's upstream start time denotes. -/
def entryInstant : RawEntry → Option Nat
  | .cf e => some (unixAbsSec + e.startTimeSeconds)
  | .lc e => some (unixAbsSec + e.startTime)
  | .cc e => instantOfStr e.contest_start_date_iso

/-! ## Contest store (`database.py`); SQLite tables as ordered row lists,
`fetchone` as first match in scan order, `INSERT OR REPLACE` as delete of
the conflicting primary-key row plus append -/

/-- A row of the `contests` table. -/
structure ContestRow where
  id : String
  platform : String
  title : String
  start_time : String
  duration_seconds : Nat
  url : String
  fetched_at : String
deriving DecidableEq, Repr

/-- A row of the `calendar_events` table. -/
structure EventRow where
  event_id : String
  contest_id : String
  created_at : String
deriving DecidableEq, Repr

/-- The whole SQLite database. -/
structure DB where
  contests : List ContestRow
  calendar_events : List EventRow
  preferences : List (String × String)
deriving DecidableEq, Repr

/-- `INSERT OR REPLACE INTO contests`: drop any row with the same primary
key, append the new row stamped with the write instant. -/
def upsertContest (nowStr : String) (tbl : List ContestRow) (c : Fetched) : List ContestRow :=
  tbl.filter (fun r => !(r.id == c.id)) ++
    [⟨c.id, c.platform, c.title, c.start_time, c.duration_seconds, c.url, nowStr⟩]

/-- `ContestDatabase.save_contests`: bulk upsert, each row getting
`fetched_at = datetime.now(timezone.utc).isoformat()` (passed as `nowStr`). -/
def save_contests (db : DB) (cs : List Fetched) (nowStr : String) : DB :=
  { db with contests := cs.foldl (upsertContest nowStr) db.contests }

/-- `ContestDatabase.get_contest_by_id`: point lookup, `fetchone`. -/
def get_contest_by_id (db : DB) (cid : String) : Option ContestRow :=
  db.contests.find? (fun r => r.id == cid)

/-- Platform filter of the upcoming query: `None` means no `platform =`
clause. -/
def matchesPlatform (pf : Option String) (r : ContestRow) : Bool :=
  match pf with
  | none => true
  | some p => r.platform == p

/-- `ORDER BY start_time` (BINARY TEXT collation): insert before the first
row that is strictly greater. -/
def insertByStart (r : ContestRow) : List ContestRow → List ContestRow
  | [] => [r]
  | x :: xs => if textLt r.start_time x.start_time then r :: x :: xs
               else x :: insertByStart r xs

/-- Sort rows ascending by `start_time`. -/
def sortByStart (l : List ContestRow) : List ContestRow :=
  l.foldr insertByStart []

/-- `ContestDatabase.get_upcoming_contests`.  The body reads the clock twice:
first for `cutoff_time = now + timedelta(days=days_ahead)`, then again for
`current_time = now`; the two reads are the explicit instants `tCut` and
`tCur`.  Both bounds are compared against `start_time` as TEXT. -/
def get_upcoming_contests (db : DB) (platform : Option String) (days_ahead : Nat)
    (tCut tCur : Nat) : List ContestRow :=
  let cutoff_time := isoUTC (dtFromAbs (tCut + 86400 * days_ahead))
  let current_time := isoUTC (dtFromAbs tCur)
  sortByStart (db.contests.filter (fun r =>
    matchesPlatform platform r &&
      textLt current_time r.start_time && textLt r.start_time cutoff_time))

/-- `ContestDatabase.save_calendar_event`: `INSERT OR REPLACE` keyed by
`event_id`, `created_at` stamped with the write instant. -/
def save_calendar_event (db : DB) (event_id contest_id nowStr : String) : DB :=
  { db with calendar_events :=
      db.calendar_events.filter (fun r => !(r.event_id == event_id)) ++
        [⟨event_id, contest_id, nowStr⟩] }

/-- `ContestDatabase.is_contest_in_calendar`: `fetchone` on the mapping rows
for the contest; `(True, event_id)` or `(False, None)`. -/
def is_contest_in_calendar (db : DB) (cid : String) : Bool × Option String :=
  match db.calendar_events.find? (fun r => r.contest_id == cid) with
  | some r => (true, some r.event_id)
  | none => (false, none)

/-- `ContestDatabase.get_preference`: the stored raw value, if any (the JSON
decoding of the value does not matter to any claim). -/
def get_preference (db : DB) (key : String) : Option String :=
  (db.preferences.find? (fun p => p.1 == key)).map (fun p => p.2)

/-- `ContestDatabase.set_preference`: `INSERT OR REPLACE` keyed by `key`. -/
def set_preference (db : DB) (key val : String) : DB :=
  { db with preferences :=
      db.preferences.filter (fun p => !(p.1 == key)) ++ [(key, val)] }

/-! ## Calendar request construction (`calendar_manager.py`) and the MCP
tools (`tools.py`).  The external Google client is a collaborator: its reply
to an insert/delete is a parameter of the embedded operation. -/

/-- The event body `create_contest_event` builds and sends. -/
structure EventReq where
  summary : String
  description : String
  startTime : String
  endTime : String
  timeZone : String
  reminders : List Int
deriving DecidableEq, Repr

/-- The fields of a created event the tool reads from the client's reply. -/
structure CreatedEvent where
  id : String
  htmlLink : String
deriving DecidableEq, Repr

/-- The request-building half of `create_contest_event`: parse the stored
start, add the duration for the end, render both in the row's own offset,
attach the reminder overrides in order.  `none` models the `ValueError`
raised on an unparseable `start_time`. -/
def buildEvent (c : ContestRow) (reminder_minutes : List Int) : Option EventReq :=
  match parseISO c.start_time with
  | none => none
  | some (t, off) =>
    some ⟨c.platform ++ ": " ++ c.title,
      "Contest URL: " ++ c.url,
      isoOff t off,
      isoOff (dtFromAbs (toSec t + c.duration_seconds)) off,
      "Asia/Kolkata",
      reminder_minutes⟩

/-- The discriminated outcome of `add_contest_to_calendar_tool`, one
constructor per `return` statement, carrying the data interpolated into the
returned message. -/
inductive BookResult where
  | conflict (event_id : Option String)
  | notFound (contest_id : String)
  | success (event_id : String) (reminders : List Int) (htmlLink : String)
  | failure (msg : String)
deriving DecidableEq, Repr

/-- Everything one call of the booking tool produces: the outcome, the
database afterwards, whether the external client's insert was invoked, and
the event body sent to it (when it was). -/
structure BookOutput where
  result : BookResult
  db : DB
  calendarCalled : Bool
  request : Option EventReq
deriving DecidableEq, Repr

/-- `add_contest_to_calendar_tool`.  `createOutcome` is the external
client's reply to `events().insert(...)` (`.error` models the raise inside
`create_contest_event`, re-wrapped there); `nowStr` is the mapping-row
timestamp.  The step order is the source's: default the reminders, consult
the mapping table, look the contest up, build and send the event, persist
the mapping. -/
def add_contest_to_calendar_tool (db : DB) (contest_id : String)
    (reminder_minutes : Option (List Int)) (force : Bool)
    (createOutcome : Except String CreatedEvent) (nowStr : String) : BookOutput :=
  let rm := reminder_minutes.getD [30, 10]
  let chk := is_contest_in_calendar db contest_id
  if chk.1 && !force then
    ⟨.conflict chk.2, db, false, none⟩
  else
    match get_contest_by_id db contest_id with
    | none => ⟨.notFound contest_id, db, false, none⟩
    | some c =>
      match buildEvent c rm with
      | none =>
        ⟨.failure ("Error adding to calendar: Invalid isoformat string: '"
            ++ c.start_time ++ "'"), db, false, none⟩
      | some req =>
        match createOutcome with
        | .error e =>
          ⟨.failure ("Error adding to calendar: Failed to create calendar event: " ++ e),
            db, true, some req⟩
        | .ok ev =>
          ⟨.success ev.id rm ev.htmlLink,
            save_calendar_event db ev.id contest_id nowStr, true, some req⟩

/-- The discriminated outcome of `delete_calendar_event_tool`. -/
inductive DeleteResult where
  | success (msg : String)
  | failure (msg : String)
deriving DecidableEq, Repr

/-- `delete_calendar_event_tool`: forward to the external client's delete
and format its reply; the database is not consulted and is returned as is. -/
def delete_calendar_event_tool (db : DB) (event_id : String)
    (deleteOutcome : Except String Unit) : DeleteResult × DB :=
  match deleteOutcome with
  | .ok _ =>
    (.success ("Successfully deleted event `" ++ event_id ++ "` from Google Calendar."), db)
  | .error e =>
    (.failure ("Error deleting event: Failed to delete event: " ++ e), db)

/-! ## Calendar arithmetic lemmas -/

/-- The leap-year predicate, propositionally. -/
lemma yearLenB_isLeap (y : Nat) :
    yearLenB (isLeap y) = if (y % 4 = 0 ∧ ¬ y % 100 = 0) ∨ y % 400 = 0 then 366 else 365 := by
  by_cases h4 : y % 4 = 0 <;> by_cases h100 : y % 100 = 0 <;> by_cases h400 : y % 400 = 0 <;>
    simp [isLeap, yearLenB, h4, h100, h400]

/-- Each year has at least 365 days. -/
lemma yearLenB_ge (b : Bool) : 365 ≤ yearLenB b := by cases b <;> simp [yearLenB]

set_option maxHeartbeats 1600000 in
/-- The closed form counts exactly one year length per year. -/
lemma daysBeforeYear_succ (y : Nat) :
    daysBeforeYear (y + 1) = daysBeforeYear y + yearLenB (isLeap y) := by
  rw [yearLenB_isLeap]
  unfold daysBeforeYear
  by_cases hc : (y % 4 = 0 ∧ ¬ y % 100 = 0) ∨ y % 400 = 0
  · rw [if_pos hc]; omega
  · rw [if_neg hc]; omega

/-- Monotonicity of the cumulative day count. -/
lemma daysBeforeYear_mono {a b : Nat} (h : a ≤ b) : daysBeforeYear a ≤ daysBeforeYear b := by
  induction b with
  | zero =>
    have ha : a = 0 := by omega
    subst ha; exact Nat.le_refl _
  | succ k ih =>
    rcases Nat.lt_or_ge a (k + 1) with hk | hk
    · have h1 := ih (by omega)
      have h2 := daysBeforeYear_succ k
      have h3 := yearLenB_ge (isLeap k)
      omega
    · have ha : a = k + 1 := by omega
      subst ha; exact Nat.le_refl _

/-- Crude linear bounds on the cumulative day count. -/
lemma daysBeforeYear_bounds (y : Nat) : 365 * y ≤ daysBeforeYear y ∧ daysBeforeYear y ≤ 366 * y := by
  unfold daysBeforeYear; omega

/-- The year scan lands inside a year and preserves the absolute day count,
whenever the fuel suffices to reach the target year. -/
lemma yearLoopF_spec :
    ∀ fuel y d, daysBeforeYear y + d < daysBeforeYear (y + fuel) →
      (yearLoopF fuel y d).2 < yearLenB (isLeap (yearLoopF fuel y d).1) ∧
        daysBeforeYear (yearLoopF fuel y d).1 + (yearLoopF fuel y d).2 =
          daysBeforeYear y + d := by
  intro fuel
  induction fuel with
  | zero =>
    intro y d h
    simp only [Nat.add_zero] at h
    omega
  | succ f ih =>
    intro y d h
    rw [yearLoopF]
    split
    · exact ⟨by assumption, rfl⟩
    · rename_i hge
      have hlen := daysBeforeYear_succ y
      have hy : y + (f + 1) = (y + 1) + f := by omega
      rw [hy] at h
      have hfuel : daysBeforeYear (y + 1) + (d - yearLenB (isLeap y)) <
          daysBeforeYear ((y + 1) + f) := by omega
      have := ih (y + 1) (d - yearLenB (isLeap y)) hfuel
      exact ⟨this.1, by omega⟩

set_option maxRecDepth 40000 in
/-- The month scan lands inside a month and preserves the day-of-year count,
for every day-of-year a year can contain. -/
lemma monthLoopF_spec :
    ∀ (leap : Bool), ∀ doy < 366, doy < yearLenB leap →
      1 ≤ (monthLoopF 12 leap 1 doy).1 ∧ (monthLoopF 12 leap 1 doy).1 ≤ 12 ∧
        (monthLoopF 12 leap 1 doy).2 < daysInMonth leap (monthLoopF 12 leap 1 doy).1 ∧
        daysBeforeMonth leap (monthLoopF 12 leap 1 doy).1 + (monthLoopF 12 leap 1 doy).2 =
          doy := by
  decide

/-- `dtFromAbs` produces a valid wall-clock value and is inverted by
`toSec`, on the whole representable range. -/
lemma dtFromAbs_spec (n : Nat) (h : n < maxAbs) :
    ValidDT (dtFromAbs n) ∧ toSec (dtFromAbs n) = n := by
  have hdays : n / 86400 < daysBeforeYear 10000 := by
    unfold maxAbs at h; omega
  have hy0le : daysBeforeYear (n / 86400 / 366) ≤ n / 86400 := by
    have := (daysBeforeYear_bounds (n / 86400 / 366)).2
    omega
  have hfuel : daysBeforeYear (n / 86400 / 366) + (n / 86400 - daysBeforeYear (n / 86400 / 366)) <
      daysBeforeYear (n / 86400 / 366 + 32) := by
    rcases Nat.lt_or_ge (n / 86400 / 366 + 32) 10000 with hc | hc
    · have hlow := (daysBeforeYear_bounds (n / 86400 / 366 + 32)).1
      omega
    · have := daysBeforeYear_mono hc
      omega
  have hyl := yearLoopF_spec 32 (n / 86400 / 366) (n / 86400 - daysBeforeYear (n / 86400 / 366)) hfuel
  set p := yearLoopF 32 (n / 86400 / 366) (n / 86400 - daysBeforeYear (n / 86400 / 366)) with hp
  have hp366 : p.2 < 366 := by
    have h1 := hyl.1
    cases hb : isLeap p.1 <;> rw [hb] at h1 <;> simp [yearLenB] at h1 <;> omega
  have hml := monthLoopF_spec (isLeap p.1) p.2 hp366 hyl.1
  set q := monthLoopF 12 (isLeap p.1) 1 p.2 with hq
  have hyear : p.1 ≤ 9999 := by
    by_contra hcon
    have hm := daysBeforeYear_mono (show 10000 ≤ p.1 by omega)
    omega
  have hshape : dtFromAbs n = ⟨p.1, q.1, q.2 + 1, n % 86400 / 3600,
      n % 86400 % 3600 / 60, n % 86400 % 60⟩ := by
    rw [dtFromAbs]
  constructor
  · rw [hshape]
    unfold ValidDT
    dsimp only
    refine ⟨hyear, hml.1, hml.2.1, by omega, ?_, by omega, by omega, by omega⟩
    have := hml.2.2.1
    omega
  · rw [hshape]
    unfold toSec
    dsimp only
    have hms := hml.2.2.2
    omega

/-! ## Byte-wise comparison lemmas -/

/-- Codepoints determine characters. -/
lemma char_toNat_inj {a b : Char} (h : a.toNat = b.toNat) : a = b := by
  have h2 : Char.ofNat a.toNat = Char.ofNat b.toNat := by rw [h]
  simpa using h2

/-- Comparison of a list with itself is false. -/
lemma textLtL_irrefl (l : List Char) : textLtL l l = false := by
  induction l with
  | nil => rfl
  | cons c t ih => simp [textLtL, ih]

/-- The comparison is asymmetric. -/
lemma textLtL_asymm {a b : List Char} (h : textLtL a b = true) : textLtL b a = false := by
  induction a generalizing b with
  | nil => cases b with
    | nil => simp [textLtL] at h
    | cons y t => simp [textLtL]
  | cons x xt ih => cases b with
    | nil => simp [textLtL] at h
    | cons y yt =>
      simp only [textLtL, Bool.or_eq_true, decide_eq_true_eq, Bool.and_eq_true,
        beq_iff_eq] at h ⊢
      rcases h with h | ⟨he, ht⟩
      · simp only [Bool.or_eq_false_iff, decide_eq_false_iff_not, Bool.and_eq_false_iff]
        constructor
        · omega
        · left; simp only [beq_eq_false_iff_ne, ne_eq]; omega
      · simp only [Bool.or_eq_false_iff, decide_eq_false_iff_not, Bool.and_eq_false_iff]
        constructor
        · omega
        · right; exact ih ht

/-- The comparison is transitive. -/
lemma textLtL_trans {a b c : List Char}
    (h1 : textLtL a b = true) (h2 : textLtL b c = true) : textLtL a c = true := by
  induction a generalizing b c with
  | nil => cases c with
    | nil =>
      cases b with
      | nil => simp [textLtL] at h2
      | cons y t => simp [textLtL] at h2
    | cons z t => simp [textLtL]
  | cons x xt ih =>
    cases b with
    | nil => simp [textLtL] at h1
    | cons y yt =>
      cases c with
      | nil => simp [textLtL] at h2
      | cons z zt =>
        simp only [textLtL, Bool.or_eq_true, decide_eq_true_eq, Bool.and_eq_true,
          beq_iff_eq] at h1 h2 ⊢
        rcases h1 with h1 | ⟨he1, ht1⟩ <;> rcases h2 with h2 | ⟨he2, ht2⟩
        · left; omega
        · left; omega
        · left; omega
        · right; exact ⟨by omega, ih ht1 ht2⟩

/-- Equal heads drop out of the comparison. -/
lemma textLtL_cons_same (c : Char) (xs ys : List Char) :
    textLtL (c :: xs) (c :: ys) = textLtL xs ys := by
  simp [textLtL]

/-- Comparing concatenations whose left parts have equal length proceeds
block by block. -/
lemma textLtL_append_iff {xs ys : List Char} (as bs : List Char)
    (h : xs.length = ys.length) :
    textLtL (xs ++ as) (ys ++ bs) = true ↔
      (textLtL xs ys = true ∨ (xs = ys ∧ textLtL as bs = true)) := by
  induction xs generalizing ys with
  | nil =>
    cases ys with
    | nil => simp [textLtL]
    | cons y t => simp at h
  | cons x xt ih =>
    cases ys with
    | nil => simp at h
    | cons y yt =>
      simp only [List.cons_append, textLtL, Bool.or_eq_true, decide_eq_true_eq,
        Bool.and_eq_true, beq_iff_eq, List.cons.injEq, List.append_eq]
      rw [@ih yt (by simpa using h)]
      constructor
      · rintro (h1 | ⟨he, h2 | ⟨he2, h3⟩⟩)
        · exact Or.inl (Or.inl h1)
        · exact Or.inl (Or.inr ⟨he, h2⟩)
        · exact Or.inr ⟨⟨char_toNat_inj he, he2⟩, h3⟩
      · rintro ((h1 | ⟨he, h2⟩) | ⟨⟨he1, he2⟩, h3⟩)
        · exact Or.inl h1
        · exact Or.inr ⟨he, Or.inl h2⟩
        · exact Or.inr ⟨by rw [he1], Or.inr ⟨he2, h3⟩⟩

/-! ## Digit rendering lemmas -/

/-- The codepoint of a rendered digit. -/
lemma dig_toNat (k : Nat) : (dig k).toNat = 48 + k % 10 := by
  have hb : ∀ j, j < 10 → (Char.ofNat (48 + j)).toNat = 48 + j := by decide
  exact hb (k % 10) (Nat.mod_lt _ (by omega))

/-- Rendered digits compare as their values. -/
lemma dig_lt (a b : Nat) : ((dig a).toNat < (dig b).toNat) ↔ a % 10 < b % 10 := by
  rw [dig_toNat, dig_toNat]; omega

/-- Rendered digits are equal exactly when their values are. -/
lemma dig_eq (a b : Nat) : dig a = dig b ↔ a % 10 = b % 10 := by
  constructor
  · intro h
    have := congrArg Char.toNat h
    rw [dig_toNat, dig_toNat] at this
    omega
  · intro h; unfold dig; rw [h]

/-- Two-digit blocks compare as their values. -/
lemma dig2_lt_iff {n m : Nat} (hn : n < 100) (hm : m < 100) :
    (textLtL (dig2 n) (dig2 m) = true ↔ n < m) := by
  simp only [dig2, textLtL, Bool.or_eq_true, decide_eq_true_eq, Bool.and_eq_true,
    beq_iff_eq, dig_toNat, Bool.false_eq_true, and_false, or_false]
  constructor <;> intro <;> omega

/-- Two-digit blocks are equal exactly when their values are. -/
lemma dig2_eq_iff {n m : Nat} (hn : n < 100) (hm : m < 100) :
    (dig2 n = dig2 m ↔ n = m) := by
  simp only [dig2, List.cons.injEq, and_true, dig_eq]
  constructor <;> intro <;> omega

/-- A four-digit block is the two-digit blocks of its halves. -/
lemma dig4_decomp (n : Nat) : dig4 n = dig2 (n / 100) ++ dig2 (n % 100) := by
  simp only [dig4, dig2, List.cons_append, List.nil_append, List.cons.injEq, and_true, true_and]
  refine ⟨?_, ?_, ?_⟩ <;> rw [dig_eq] <;> omega

/-- Four-digit blocks compare as their values. -/
lemma dig4_lt_iff {n m : Nat} (hn : n < 10000) (hm : m < 10000) :
    (textLtL (dig4 n) (dig4 m) = true ↔ n < m) := by
  rw [dig4_decomp, dig4_decomp,
    textLtL_append_iff _ _ (by simp [dig2]),
    dig2_lt_iff (by omega) (by omega),
    dig2_eq_iff (by omega) (by omega),
    dig2_lt_iff (by omega) (by omega)]
  constructor <;> intro <;> omega

/-- Four-digit blocks are equal exactly when their values are. -/
lemma dig4_eq_iff {n m : Nat} (hn : n < 10000) (hm : m < 10000) :
    (dig4 n = dig4 m ↔ n = m) := by
  rw [dig4_decomp, dig4_decomp]
  constructor
  · intro h
    have h2 := List.append_inj h (by simp [dig2])
    have e1 := (dig2_eq_iff (show n / 100 < 100 by omega) (show m / 100 < 100 by omega)).mp h2.1
    have e2 := (dig2_eq_iff (show n % 100 < 100 by omega) (show m % 100 < 100 by omega)).mp h2.2
    omega
  · intro h; rw [h]

/-! ## Rendered strings order as their instants -/

/-- Lexicographic (i.e. chronological) comparison of wall-clock values,
component by component. -/
def lexDT (a b : DTime) : Prop :=
  a.year < b.year ∨ (a.year = b.year ∧ (a.month < b.month ∨ (a.month = b.month ∧
    (a.day < b.day ∨ (a.day = b.day ∧ (a.hour < b.hour ∨ (a.hour = b.hour ∧
    (a.minute < b.minute ∨ (a.minute = b.minute ∧ a.second < b.second)))))))))

/-- No month has more than 31 days. -/
lemma daysInMonth_le (leap : Bool) (m : Nat) : daysInMonth leap m ≤ 31 := by
  unfold daysInMonth
  split <;> (try split) <;> omega

/-- The rendered date-time bodies compare lexicographically on the fields. -/
lemma isoBase_lt_iff (a b : DTime) (ha : ValidDT a) (hb : ValidDT b) :
    (textLtL (isoBaseChars a) (isoBaseChars b) = true ↔ lexDT a b) := by
  obtain ⟨hay, ham1, ham2, had1, had2, hah, hai, has⟩ := ha
  obtain ⟨hby, hbm1, hbm2, hbd1, hbd2, hbh, hbi, hbs⟩ := hb
  have hadm := daysInMonth_le (isLeap a.year) a.month
  have hbdm := daysInMonth_le (isLeap b.year) b.month
  unfold isoBaseChars
  rw [textLtL_append_iff _ _ (by simp [dig4]),
    dig4_lt_iff (by omega) (by omega), dig4_eq_iff (by omega) (by omega),
    textLtL_cons_same,
    textLtL_append_iff _ _ (by simp [dig2]),
    dig2_lt_iff (by omega) (by omega), dig2_eq_iff (by omega) (by omega),
    textLtL_cons_same,
    textLtL_append_iff _ _ (by simp [dig2]),
    dig2_lt_iff (by omega) (by omega), dig2_eq_iff (by omega) (by omega),
    textLtL_cons_same,
    textLtL_append_iff _ _ (by simp [dig2]),
    dig2_lt_iff (by omega) (by omega), dig2_eq_iff (by omega) (by omega),
    textLtL_cons_same,
    textLtL_append_iff _ _ (by simp [dig2]),
    dig2_lt_iff (by omega) (by omega), dig2_eq_iff (by omega) (by omega),
    textLtL_cons_same,
    dig2_lt_iff (by omega) (by omega)]
  unfold lexDT
  tauto

/-- A day offset inside a month stays inside the year. -/
lemma dBM_le_yearLen :
    ∀ (leap : Bool), ∀ mo < 13, ∀ d < 32, 1 ≤ mo → 1 ≤ d → d ≤ daysInMonth leap mo →
      daysBeforeMonth leap mo + (d - 1) < yearLenB leap := by
  decide

/-- Day counts grow across months. -/
lemma dBM_mono :
    ∀ (leap : Bool), ∀ mo < 13, ∀ mo2 < 13, 1 ≤ mo → mo < mo2 →
      daysBeforeMonth leap mo + daysInMonth leap mo ≤ daysBeforeMonth leap mo2 := by
  decide

/-- Lexicographically earlier valid wall-clock values have smaller second
counts. -/
lemma toSec_lt_of_lex (a b : DTime) (ha : ValidDT a) (hb : ValidDT b)
    (h : lexDT a b) : toSec a < toSec b := by
  obtain ⟨ay, am, ad, ah, ai, asec⟩ := a
  obtain ⟨yb, bm, bd, bh, bi, bsec⟩ := b
  obtain ⟨hay, ham1, ham2, had1, had2, hah, hai, has⟩ := ha
  obtain ⟨hby, hbm1, hbm2, hbd1, hbd2, hbh, hbi, hbs⟩ := hb
  have hadm := daysInMonth_le (isLeap ay) am
  have hbdm := daysInMonth_le (isLeap yb) bm
  unfold lexDT at h
  unfold toSec
  dsimp only at *
  rcases h with hy | ⟨hy, h⟩
  · have h1 := dBM_le_yearLen (isLeap ay) am (by omega) ad (by omega) ham1 had1 had2
    have h2 := daysBeforeYear_succ ay
    have h3 := daysBeforeYear_mono (show ay + 1 ≤ yb by omega)
    omega
  · subst hy
    rcases h with hm | ⟨hm, h⟩
    · have h5 := dBM_mono (isLeap ay) am (by omega) bm (by omega) ham1 hm
      omega
    · subst hm
      rcases h with hd | ⟨hd, h⟩
      · omega
      · subst hd
        omega

/-- Second counts of valid wall-clock values order exactly
lexicographically. -/
lemma toSec_lt_iff_lex (a b : DTime) (ha : ValidDT a) (hb : ValidDT b) :
    (toSec a < toSec b ↔ lexDT a b) := by
  constructor
  · intro h
    by_contra hn
    have tri : lexDT a b ∨ (a.year = b.year ∧ a.month = b.month ∧ a.day = b.day ∧
        a.hour = b.hour ∧ a.minute = b.minute ∧ a.second = b.second) ∨ lexDT b a := by
      unfold lexDT; omega
    rcases tri with htri | htri | htri
    · exact hn htri
    · obtain ⟨ay, am, ad, ah, ai, asec⟩ := a
      obtain ⟨yb, bm, bd, bh, bi, bsec⟩ := b
      dsimp only at htri
      obtain ⟨e1, e2, e3, e4, e5, e6⟩ := htri
      subst e1; subst e2; subst e3; subst e4; subst e5; subst e6
      omega
    · have := toSec_lt_of_lex b a hb ha htri
      omega
  · exact toSec_lt_of_lex a b ha hb

/-- The rendered UTC strings of valid wall-clock values compare as their
second counts: SQLite's TEXT order is chronological order on this data. -/
lemma textLt_iso_iff (a b : DTime) (ha : ValidDT a) (hb : ValidDT b) :
    (textLt (isoUTC a) (isoUTC b) = true ↔ toSec a < toSec b) := by
  show textLtL (isoBaseChars a ++ '+' :: (dig2 (0 / 60) ++ ':' :: dig2 (0 % 60)))
      (isoBaseChars b ++ '+' :: (dig2 (0 / 60) ++ ':' :: dig2 (0 % 60))) = true ↔ _
  rw [textLtL_append_iff _ _ (by simp [isoBaseChars, dig4, dig2])]
  rw [isoBase_lt_iff a b ha hb, toSec_lt_iff_lex a b ha hb]
  simp [textLtL_irrefl]

/-- Rendered representable instants compare as the instants themselves. -/
lemma iso_abs_lt_iff {n m : Nat} (hn : n < maxAbs) (hm : m < maxAbs) :
    (textLt (isoUTC (dtFromAbs n)) (isoUTC (dtFromAbs m)) = true ↔ n < m) := by
  rw [textLt_iso_iff _ _ (dtFromAbs_spec n hn).1 (dtFromAbs_spec m hm).1,
    (dtFromAbs_spec n hn).2, (dtFromAbs_spec m hm).2]

/-! ## Sorting and store lemmas -/

/-- Asymmetry, on strings. -/
lemma textLt_asymm {a b : String} (h : textLt a b = true) : textLt b a = false :=
  textLtL_asymm h

/-- Transitivity, on strings. -/
lemma textLt_trans {a b c : String} (h1 : textLt a b = true) (h2 : textLt b c = true) :
    textLt a c = true :=
  textLtL_trans h1 h2

/-- Insertion keeps exactly the old rows plus the new one. -/
lemma mem_insertByStart {x r : ContestRow} {l : List ContestRow} :
    x ∈ insertByStart r l ↔ x = r ∨ x ∈ l := by
  induction l with
  | nil => simp [insertByStart]
  | cons y ys ih =>
    rw [insertByStart]
    split
    · simp
    · simp only [List.mem_cons, ih]
      tauto

/-- Sorting keeps exactly the rows. -/
lemma mem_sortByStart {x : ContestRow} {l : List ContestRow} :
    x ∈ sortByStart l ↔ x ∈ l := by
  induction l with
  | nil => simp [sortByStart]
  | cons y ys ih =>
    show x ∈ insertByStart y (sortByStart ys) ↔ _
    rw [mem_insertByStart]
    simp [ih]

/-- The ascending-order invariant of the `ORDER BY` result: no later row
compares strictly below an earlier one. -/
def AscByStart (l : List ContestRow) : Prop :=
  l.Pairwise (fun a b => textLt b.start_time a.start_time = false)

/-- Insertion preserves the ascending-order invariant. -/
lemma asc_insertByStart {r : ContestRow} {l : List ContestRow}
    (h : AscByStart l) : AscByStart (insertByStart r l) := by
  induction l with
  | nil => simp [insertByStart, AscByStart]
  | cons x xs ih =>
    rw [AscByStart, insertByStart]
    rcases h with _ | ⟨hx, hxs⟩
    split
    · rename_i hlt
      constructor
      · intro y hy
        rcases List.mem_cons.mp hy with hy | hy
        · subst hy; exact textLt_asymm hlt
        · have hxy := hx y hy
          rcases he : textLt y.start_time r.start_time with _ | _
          · rfl
          · exact absurd (textLt_trans he hlt) (by simp [hxy])
      · exact List.Pairwise.cons hx hxs
    · rename_i hge
      constructor
      · intro y hy
        rcases mem_insertByStart.mp hy with hy | hy
        · subst hy
          simpa using hge
        · exact hx y hy
      · exact ih hxs

/-- The `ORDER BY start_time` result is ascending. -/
lemma asc_sortByStart (l : List ContestRow) : AscByStart (sortByStart l) := by
  induction l with
  | nil => simp [sortByStart, AscByStart]
  | cons y ys ih => exact asc_insertByStart ih

/-! ## Concrete fixtures -/

/-- A stored contest row as an aggregation pass writes it. -/
def exampleRow : ContestRow :=
  ⟨"codeforces_1000", "Codeforces", "Edu Round 99", "2024-03-01T14:30:00+00:00", 7200,
    "https://codeforces.com/contest/1000", "2024-02-01T00:00:00+00:00"⟩

/-- A database holding one contest and a stored default-reminders
preference. -/
def dbWithPref : DB := ⟨[exampleRow], [], [("default_reminders", "[60]")]⟩

/-- A database with no contests but a leftover mapping row. -/
def dbStaleMapping : DB := ⟨[], [⟨"ev1", "c1", "2024-01-01T00:00:00+00:00"⟩], []⟩

/-! ## Claims -/

/-- C1: the booking tool is claimed to take the reminder offsets from the
stored `default_reminders` preference when the caller supplies none, falling
back to `[30, 10]` only when neither exists.  The code instead hardcodes
`[30, 10]` whenever the caller supplies none: with the preference set to
`[60]`, the event request is still built with reminders `[30, 10]`, and the
preference is never read. -/
theorem c1_preference_ignored :
    get_preference dbWithPref "default_reminders" = some "[60]" ∧
    (add_contest_to_calendar_tool dbWithPref "codeforces_1000" none false
        (.ok ⟨"evt1", "link1"⟩) "2024-02-02T00:00:00+00:00").request.map
        (fun r => r.reminders) = some [30, 10] ∧
    (add_contest_to_calendar_tool dbWithPref "codeforces_1000" none false
        (.ok ⟨"evt1", "link1"⟩) "2024-02-02T00:00:00+00:00").result =
      .success "evt1" [30, 10] "link1" ∧
    ([30, 10] : List Int) ≠ [60] := by
  refine ⟨?_, ?_, ?_, ?_⟩ <;> decide

/-- C3 counterexample: with a mapping row present for an id absent from the
contests table and `force = false`, the booking tool returns Conflict with
the stale event id, not NotFound — the mapping check runs before the
contest lookup. -/
theorem c3_counterexample :
    get_contest_by_id dbStaleMapping "c1" = none ∧
    (add_contest_to_calendar_tool dbStaleMapping "c1" none false
        (.ok ⟨"evt9", "link9"⟩) "t").result = .conflict (some "ev1") ∧
    (add_contest_to_calendar_tool dbStaleMapping "c1" none false
        (.ok ⟨"evt9", "link9"⟩) "t").result ≠ .notFound "c1" := by
  refine ⟨?_, ?_, ?_⟩ <;> decide

/-- C3 amended: when the contest id is absent, the booking fails with
NotFound — provided `force` is true or no mapping row exists for that id;
nothing is persisted and the external client is not called. -/
theorem c3_amended_notfound (db : DB) (cid : String) (rm : Option (List Int)) (force : Bool)
    (co : Except String CreatedEvent) (nowStr : String)
    (habsent : get_contest_by_id db cid = none)
    (hpath : force = true ∨ (is_contest_in_calendar db cid).1 = false) :
    (add_contest_to_calendar_tool db cid rm force co nowStr).result = .notFound cid ∧
    (add_contest_to_calendar_tool db cid rm force co nowStr).db = db ∧
    (add_contest_to_calendar_tool db cid rm force co nowStr).calendarCalled = false := by
  unfold add_contest_to_calendar_tool
  rcases hpath with hf | hn
  · subst hf
    simp [habsent]
  · simp [habsent, hn]

/-- C3 amended, witness at an empty store. -/
theorem c3_amended_witness :
    get_contest_by_id (⟨[], [], []⟩ : DB) "c9" = none ∧
    (add_contest_to_calendar_tool ⟨[], [], []⟩ "c9" none false (.ok ⟨"e", "l"⟩) "t").result =
      .notFound "c9" ∧
    (add_contest_to_calendar_tool ⟨[], [], []⟩ "c9" none false (.ok ⟨"e", "l"⟩) "t").db =
      ⟨[], [], []⟩ ∧
    (add_contest_to_calendar_tool ⟨[], [], []⟩ "c9" none false (.ok ⟨"e", "l"⟩)
        "t").calendarCalled = false := by
  have h := c3_amended_notfound ⟨[], [], []⟩ "c9" none false (.ok ⟨"e", "l"⟩) "t"
    (by decide) (Or.inr (by decide))
  exact ⟨by decide, h.1, h.2.1, h.2.2⟩

/-- C5: the aggregator returns the concatenation of exactly the successful
branches' records — for each single-failure pattern the result is the union
of the two successes, and membership in the result is membership in some
successful branch; by construction no exception escapes. -/
theorem c5_fetch_all_isolates_failures :
    (∀ l2 l3 e, fetch_all (.error e) (.ok l2) (.ok l3) = l2 ++ l3) ∧
    (∀ l1 l3 e, fetch_all (.ok l1) (.error e) (.ok l3) = l1 ++ l3) ∧
    (∀ l1 l2 e, fetch_all (.ok l1) (.ok l2) (.error e) = l1 ++ l2) ∧
    (∀ r1 r2 r3 c, c ∈ fetch_all r1 r2 r3 ↔
      ((∃ l, r1 = Except.ok l ∧ c ∈ l) ∨ (∃ l, r2 = Except.ok l ∧ c ∈ l) ∨
        (∃ l, r3 = Except.ok l ∧ c ∈ l))) := by
  refine ⟨?_, ?_, ?_, ?_⟩
  · intro l2 l3 e; simp [fetch_all, gatherPart]
  · intro l1 l3 e; simp [fetch_all, gatherPart]
  · intro l1 l2 e; simp [fetch_all, gatherPart]
  · intro r1 r2 r3 c
    cases r1 <;> cases r2 <;> cases r3 <;> simp [fetch_all, gatherPart]

/-- C7: the CodeChef adapter parses the offset-bearing start
`2024-03-01T20:00:00+05:30` preserving the `+05:30` offset, stores the
equivalent UTC instant (rendered `2024-03-01T14:30:00+00:00`, i.e.
2024-03-01T14:30:00Z), and converts the 150-minute duration to 9000
seconds. -/
theorem c7_codechef_offset_normalization :
    normalize_codechef ⟨"START150", "March Long", "2024-03-01T20:00:00+05:30", "150"⟩ =
      some ⟨"codechef_START150", "CodeChef", "March Long", "2024-03-01T14:30:00+00:00", 9000,
        "https://www.codechef.com/START150"⟩ ∧
    parseISO "2024-03-01T20:00:00+05:30" = some (⟨2024, 3, 1, 20, 0, 0⟩, 330) ∧
    instantOf ⟨2024, 3, 1, 20, 0, 0⟩ 330 = toSec ⟨2024, 3, 1, 14, 30, 0⟩ ∧
    isoUTC ⟨2024, 3, 1, 14, 30, 0⟩ = "2024-03-01T14:30:00+00:00" := by
  refine ⟨?_, ?_, ?_, ?_⟩ <;> decide

/-- C9: the delete tool only forwards to the external client's delete — it
returns the success message when that delete succeeds, even with no local
mapping row for the event id, and the database is unchanged for every
outcome of the external call. -/
theorem c9_delete_ignores_local_state (db : DB) (event_id : String)
    (_hnomap : ∀ r ∈ db.calendar_events, r.event_id ≠ event_id) :
    (delete_calendar_event_tool db event_id (.ok ())).1 =
      .success ("Successfully deleted event `" ++ event_id ++ "` from Google Calendar.") ∧
    (∀ outcome, (delete_calendar_event_tool db event_id outcome).2 = db) := by
  constructor
  · rfl
  · intro o; cases o <;> rfl

/-- C9, witness at an empty store. -/
theorem c9_witness :
    ((∀ r ∈ (⟨[], [], []⟩ : DB).calendar_events, r.event_id ≠ "ev1") ∧
      (delete_calendar_event_tool ⟨[], [], []⟩ "ev1" (.ok ())).1 =
        .success ("Successfully deleted event `" ++ "ev1" ++ "` from Google Calendar.")) ∧
    (∀ outcome, (delete_calendar_event_tool ⟨[], [], []⟩ "ev1" outcome).2 = ⟨[], [], []⟩) := by
  have h := c9_delete_ignores_local_state ⟨[], [], []⟩ "ev1" (by simp)
  exact ⟨⟨by simp, h.1⟩, h.2⟩

/-- C2: on a stored contest with no prior mapping, booking with
`force = false` succeeds once — calling the external client and recording
the returned event id — and a second `force = false` call returns Conflict
carrying that same event id, without calling the external client and
without changing the database. -/
theorem c2_idempotency_guard (db : DB) (cid : String) (c : ContestRow) (ev : CreatedEvent)
    (rm1 rm2 : Option (List Int)) (t1 t2 : String) (co2 : Except String CreatedEvent)
    (hc : get_contest_by_id db cid = some c)
    (hn : (is_contest_in_calendar db cid).1 = false)
    (hp : (parseISO c.start_time).isSome = true) :
    (add_contest_to_calendar_tool db cid rm1 false (.ok ev) t1).result =
      .success ev.id (rm1.getD [30, 10]) ev.htmlLink ∧
    (add_contest_to_calendar_tool db cid rm1 false (.ok ev) t1).calendarCalled = true ∧
    (add_contest_to_calendar_tool (add_contest_to_calendar_tool db cid rm1 false (.ok ev) t1).db
        cid rm2 false co2 t2).result = .conflict (some ev.id) ∧
    (add_contest_to_calendar_tool (add_contest_to_calendar_tool db cid rm1 false (.ok ev) t1).db
        cid rm2 false co2 t2).calendarCalled = false ∧
    (add_contest_to_calendar_tool (add_contest_to_calendar_tool db cid rm1 false (.ok ev) t1).db
        cid rm2 false co2 t2).db =
      (add_contest_to_calendar_tool db cid rm1 false (.ok ev) t1).db := by
  rw [Option.isSome_iff_exists] at hp
  obtain ⟨⟨pt, poff⟩, hpr⟩ := hp
  have h1 : add_contest_to_calendar_tool db cid rm1 false (.ok ev) t1 =
      ⟨.success ev.id (rm1.getD [30, 10]) ev.htmlLink,
        save_calendar_event db ev.id cid t1, true,
        some ⟨c.platform ++ ": " ++ c.title, "Contest URL: " ++ c.url, isoOff pt poff,
          isoOff (dtFromAbs (toSec pt + c.duration_seconds)) poff, "Asia/Kolkata",
          rm1.getD [30, 10]⟩⟩ := by
    unfold add_contest_to_calendar_tool buildEvent
    simp [hn, hc, hpr]
  have hn0 : db.calendar_events.find? (fun r => r.contest_id == cid) = none := by
    revert hn
    unfold is_contest_in_calendar
    cases h : db.calendar_events.find? (fun r => r.contest_id == cid) <;> simp [h]
  have hfind1 : (save_calendar_event db ev.id cid t1).calendar_events.find?
      (fun r => r.contest_id == cid) = some ⟨ev.id, cid, t1⟩ := by
    unfold save_calendar_event
    dsimp only
    rw [List.find?_append]
    have hmem : ∀ r ∈ db.calendar_events.filter (fun r => !(r.event_id == ev.id)),
        ¬ (r.contest_id == cid) = true := by
      intro r hr
      exact List.find?_eq_none.mp hn0 r (List.mem_of_mem_filter hr)
    rw [List.find?_eq_none.mpr hmem]
    simp
  have h2 : add_contest_to_calendar_tool (save_calendar_event db ev.id cid t1) cid rm2 false
      co2 t2 = ⟨.conflict (some ev.id), save_calendar_event db ev.id cid t1, false, none⟩ := by
    unfold add_contest_to_calendar_tool is_contest_in_calendar
    rw [hfind1]
    simp
  rw [h1]
  dsimp only
  rw [h2]
  exact ⟨rfl, rfl, rfl, rfl, rfl⟩

/-- C2, witness: booking the stored fixture twice. -/
theorem c2_witness :
    get_contest_by_id ⟨[exampleRow], [], []⟩ "codeforces_1000" = some exampleRow ∧
    (is_contest_in_calendar ⟨[exampleRow], [], []⟩ "codeforces_1000").1 = false ∧
    (add_contest_to_calendar_tool ⟨[exampleRow], [], []⟩ "codeforces_1000" none false
        (.ok ⟨"evt1", "link1"⟩) "t1").result = .success "evt1" [30, 10] "link1" ∧
    (add_contest_to_calendar_tool
        (add_contest_to_calendar_tool ⟨[exampleRow], [], []⟩ "codeforces_1000" none false
          (.ok ⟨"evt1", "link1"⟩) "t1").db "codeforces_1000" none false (.ok ⟨"evt2", "l2"⟩)
        "t2").result = .conflict (some "evt1") ∧
    (add_contest_to_calendar_tool
        (add_contest_to_calendar_tool ⟨[exampleRow], [], []⟩ "codeforces_1000" none false
          (.ok ⟨"evt1", "link1"⟩) "t1").db "codeforces_1000" none false (.ok ⟨"evt2", "l2"⟩)
        "t2").calendarCalled = false := by
  have h := c2_idempotency_guard ⟨[exampleRow], [], []⟩ "codeforces_1000" exampleRow
    ⟨"evt1", "link1"⟩ none none "t1" "t2" (.ok ⟨"evt2", "l2"⟩)
    (by decide) (by decide) (by decide)
  exact ⟨by decide, by decide, h.1, h.2.2.1, h.2.2.2.1⟩

/-- After an upsert, the rows carrying the upserted id are exactly the one
new row. -/
lemma filter_upsertContest (tbl : List ContestRow) (c : Fetched) (t : String) :
    (upsertContest t tbl c).filter (fun r => r.id == c.id) =
      [⟨c.id, c.platform, c.title, c.start_time, c.duration_seconds, c.url, t⟩] := by
  unfold upsertContest
  rw [List.filter_append, List.filter_filter]
  have h1 : List.filter (fun r : ContestRow => (r.id == c.id) && (!(r.id == c.id)))
      tbl = [] := by
    rw [List.filter_eq_nil_iff]
    intro a _
    cases h : a.id == c.id <;> simp [h]
  rw [h1]
  simp

/-- C6: upserting two records with the same id (and possibly different
other fields) leaves exactly one row for that id, carrying the second
record's fields with `fetched_at` stamped by the second write; nothing is
merged from the first write. -/
theorem c6_upsert_last_write_wins (db : DB) (f1 f2 : Fetched) (t1 t2 : String)
    (_hid : f1.id = f2.id)
    (_hnd : (db.contests.map (fun r => r.id)).Nodup) :
    (save_contests (save_contests db [f1] t1) [f2] t2).contests.filter
        (fun r => r.id == f2.id) =
      [⟨f2.id, f2.platform, f2.title, f2.start_time, f2.duration_seconds, f2.url, t2⟩] := by
  unfold save_contests
  simp only [List.foldl_cons, List.foldl_nil]
  exact filter_upsertContest _ _ _

/-- C6, witness: re-upserting one contest with a changed title. -/
theorem c6_witness :
    (("codechef_X" : String) = "codechef_X" ∧
      ((⟨[], [], []⟩ : DB).contests.map (fun r => r.id)).Nodup) ∧
    (save_contests (save_contests ⟨[], [], []⟩
        [⟨"codechef_X", "CodeChef", "Old Title", "2024-03-01T14:30:00+00:00", 3600, "u"⟩] "t1")
        [⟨"codechef_X", "CodeChef", "New Title", "2024-03-01T14:30:00+00:00", 3600, "u"⟩]
        "t2").contests.filter (fun r => r.id == "codechef_X") =
      [⟨"codechef_X", "CodeChef", "New Title", "2024-03-01T14:30:00+00:00", 3600, "u", "t2"⟩] := by
  have h := c6_upsert_last_write_wins ⟨[], [], []⟩
    ⟨"codechef_X", "CodeChef", "Old Title", "2024-03-01T14:30:00+00:00", 3600, "u"⟩
    ⟨"codechef_X", "CodeChef", "New Title", "2024-03-01T14:30:00+00:00", 3600, "u"⟩
    "t1" "t2" rfl (by simp)
  exact ⟨⟨rfl, by simp⟩, h⟩

/-- C8: when the contest is stored and the attempt reaches the external
create call but that call fails, the tool returns the Failure outcome whose
message carries the upstream error text, the database is unchanged, and the
external client was indeed called. -/
theorem c8_external_failure_nothing_persisted (db : DB) (cid : String) (c : ContestRow)
    (rm : Option (List Int)) (force : Bool) (e : String) (nowStr : String)
    (hc : get_contest_by_id db cid = some c)
    (hpath : force = true ∨ (is_contest_in_calendar db cid).1 = false)
    (hp : (parseISO c.start_time).isSome = true) :
    (add_contest_to_calendar_tool db cid rm force (.error e) nowStr).result =
      .failure ("Error adding to calendar: Failed to create calendar event: " ++ e) ∧
    (add_contest_to_calendar_tool db cid rm force (.error e) nowStr).db = db ∧
    (add_contest_to_calendar_tool db cid rm force (.error e) nowStr).calendarCalled = true := by
  rw [Option.isSome_iff_exists] at hp
  obtain ⟨⟨pt, poff⟩, hpr⟩ := hp
  unfold add_contest_to_calendar_tool buildEvent
  rcases hpath with hf | hn
  · subst hf
    simp [hc, hpr]
  · simp [hc, hn, hpr]

/-- C8, witness: a failing create on the stored fixture. -/
theorem c8_witness :
    (get_contest_by_id ⟨[exampleRow], [], []⟩ "codeforces_1000" = some exampleRow ∧
      (is_contest_in_calendar ⟨[exampleRow], [], []⟩ "codeforces_1000").1 = false) ∧
    (add_contest_to_calendar_tool ⟨[exampleRow], [], []⟩ "codeforces_1000" none false
        (.error "quota exceeded") "t").result =
      .failure ("Error adding to calendar: Failed to create calendar event: " ++
        "quota exceeded") ∧
    (add_contest_to_calendar_tool ⟨[exampleRow], [], []⟩ "codeforces_1000" none false
        (.error "quota exceeded") "t").db = ⟨[exampleRow], [], []⟩ := by
  have h := c8_external_failure_nothing_persisted ⟨[exampleRow], [], []⟩ "codeforces_1000"
    exampleRow none false "quota exceeded" "t" (by decide) (Or.inr (by decide)) (by decide)
  exact ⟨⟨by decide, by decide⟩, h.1, h.2.1⟩

/-- Every normalized record's stored start string is the UTC rendering of
its entry's instant. -/
lemma normalize_start_iso (nowUnix : Nat) (r : RawEntry) (c : Fetched) (i : Nat)
    (h : normalizeEntry nowUnix r = some c) (hi : entryInstant r = some i) :
    c.start_time = isoUTC (dtFromAbs i) := by
  cases r with
  | cf e =>
    simp only [normalizeEntry] at h
    simp only [entryInstant] at hi
    unfold normalize_codeforces at h
    by_cases hb : (e.phase == "BEFORE") = true
    · rw [if_pos hb] at h
      injection h with hc
      injection hi with hii
      subst hc
      subst hii
      rfl
    · rw [if_neg hb] at h
      cases h
  | lc e =>
    simp only [normalizeEntry] at h
    simp only [entryInstant] at hi
    unfold normalize_leetcode at h
    by_cases hb : nowUnix < e.startTime
    · rw [if_pos hb] at h
      injection h with hc
      injection hi with hii
      subst hc
      subst hii
      rfl
    · rw [if_neg hb] at h
      cases h
  | cc e =>
    simp only [normalizeEntry] at h
    simp only [entryInstant, instantOfStr] at hi
    unfold normalize_codechef at h
    cases hp : parseISO e.contest_start_date_iso with
    | none =>
      rw [hp] at h
      simp at h
    | some p =>
      obtain ⟨pt, poff⟩ := p
      rw [hp] at h hi
      simp only [Option.map_some'] at hi
      injection hi with hii
      cases hd : parseNat e.contest_duration with
      | none =>
        rw [hd] at h
        simp at h
      | some mins =>
        rw [hd] at h
        simp only [] at h
        injection h with hc
        subst hc
        subst hii
        rfl

/-- C10: the stored `start_time` strings of any two records the adapters
produce are uniform UTC renderings whose byte-wise (SQLite TEXT) order
agrees with the chronological order of the instants the upstream entries
denote, for all representable instants — so the TEXT comparisons in
`get_upcoming_contests` respect chronology. -/
theorem c10_text_order_is_chronological (nowUnix : Nat) (r1 r2 : RawEntry)
    (c1 c2 : Fetched) (i1 i2 : Nat)
    (h1 : normalizeEntry nowUnix r1 = some c1)
    (h2 : normalizeEntry nowUnix r2 = some c2)
    (hi1 : entryInstant r1 = some i1)
    (hi2 : entryInstant r2 = some i2)
    (hb1 : i1 < maxAbs) (hb2 : i2 < maxAbs) :
    (textLt c1.start_time c2.start_time = true ↔ i1 < i2) := by
  rw [normalize_start_iso nowUnix r1 c1 i1 h1 hi1,
    normalize_start_iso nowUnix r2 c2 i2 h2 hi2]
  exact iso_abs_lt_iff hb1 hb2

/-- C10, witness: a Codeforces entry against a CodeChef entry. -/
theorem c10_witness :
    (normalizeEntry 0 (.cf ⟨1000, "A", "BEFORE", 1700000000, 7200⟩) =
        some ⟨"codeforces_1000", "Codeforces", "A", "2023-11-14T22:13:20+00:00", 7200,
          "https://codeforces.com/contest/1000"⟩ ∧
      normalizeEntry 0 (.cc ⟨"X", "B", "2024-03-01T20:00:00+05:30", "150"⟩) =
        some ⟨"codechef_X", "CodeChef", "B", "2024-03-01T14:30:00+00:00", 9000,
          "https://www.codechef.com/X"⟩ ∧
      entryInstant (.cf ⟨1000, "A", "BEFORE", 1700000000, 7200⟩) =
        some (unixAbsSec + 1700000000) ∧
      entryInstant (.cc ⟨"X", "B", "2024-03-01T20:00:00+05:30", "150"⟩) =
        some (toSec ⟨2024, 3, 1, 20, 0, 0⟩ - 60 * 330) ∧
      unixAbsSec + 1700000000 < maxAbs ∧
      toSec ⟨2024, 3, 1, 20, 0, 0⟩ - 60 * 330 < maxAbs) ∧
    (textLt "2023-11-14T22:13:20+00:00" "2024-03-01T14:30:00+00:00" = true ↔
      unixAbsSec + 1700000000 < toSec ⟨2024, 3, 1, 20, 0, 0⟩ - 60 * 330) := by
  have h := c10_text_order_is_chronological 0
    (.cf ⟨1000, "A", "BEFORE", 1700000000, 7200⟩)
    (.cc ⟨"X", "B", "2024-03-01T20:00:00+05:30", "150"⟩)
    ⟨"codeforces_1000", "Codeforces", "A", "2023-11-14T22:13:20+00:00", 7200,
      "https://codeforces.com/contest/1000"⟩
    ⟨"codechef_X", "CodeChef", "B", "2024-03-01T14:30:00+00:00", 9000,
      "https://www.codechef.com/X"⟩
    (unixAbsSec + 1700000000) (toSec ⟨2024, 3, 1, 20, 0, 0⟩ - 60 * 330)
    (by decide) (by decide) (by decide) (by decide) (by decide) (by decide)
  exact ⟨⟨by decide, by decide, by decide, by decide, by decide, by decide⟩, h⟩

/-! ## C4: the upcoming-contests window -/

/-- The upcoming query as the spec words it, for the refinement comparison:
one single "now" instant is used for both window ends, and a stored row is
returned exactly when the instant its start string denotes lies strictly
between that now and now + horizon. -/
def query_upcoming_singleNow (db : DB) (platform : Option String) (days_ahead : Nat)
    (tNow : Nat) : List ContestRow :=
  sortByStart (db.contests.filter (fun r =>
    matchesPlatform platform r &&
      (match instantOfStr r.start_time with
       | some n => decide (tNow < n ∧ n < tNow + 86400 * days_ahead)
       | none => false)))

/-- Stored row starting 2024-01-01T11:00:00Z. -/
def rowA : ContestRow :=
  ⟨"codeforces_1", "Codeforces", "A", "2024-01-01T11:00:00+00:00", 3600, "ua", "f"⟩

/-- Stored row starting 2024-01-01T18:00:00Z. -/
def rowB : ContestRow :=
  ⟨"codeforces_2", "Codeforces", "B", "2024-01-01T18:00:00+00:00", 3600, "ub", "f"⟩

/-- Stored row starting 2024-01-02T01:00:00Z. -/
def rowC : ContestRow :=
  ⟨"codeforces_3", "Codeforces", "C", "2024-01-02T01:00:00+00:00", 3600, "uc", "f"⟩

/-- A store with the three rows. -/
def dbWindow : DB := ⟨[rowA, rowB, rowC], [], []⟩

/-- C4 counterexample: with the cutoff clock read at 2024-01-01T00:00:00Z,
the lower-bound clock read at 2024-01-01T12:00:00Z and a 1-day horizon, the
query returns exactly `rowB` — and no single "now" reproduces that result,
because any window of exactly 86400 seconds that contains 18:00 while
excluding 11:00 must contain next-day 01:00. -/
theorem c4_counterexample :
    ¬ ∃ tNow : Nat, get_upcoming_contests dbWindow none 1 (toSec ⟨2024, 1, 1, 0, 0, 0⟩)
        (toSec ⟨2024, 1, 1, 12, 0, 0⟩) = query_upcoming_singleNow dbWindow none 1 tNow := by
  rintro ⟨t, heq⟩
  have hcode : get_upcoming_contests dbWindow none 1 (toSec ⟨2024, 1, 1, 0, 0, 0⟩)
      (toSec ⟨2024, 1, 1, 12, 0, 0⟩) = [rowB] := by decide
  rw [hcode] at heq
  have hIA : instantOfStr rowA.start_time = some (toSec ⟨2024, 1, 1, 11, 0, 0⟩) := by decide
  have hIB : instantOfStr rowB.start_time = some (toSec ⟨2024, 1, 1, 18, 0, 0⟩) := by decide
  have hIC : instantOfStr rowC.start_time = some (toSec ⟨2024, 1, 2, 1, 0, 0⟩) := by decide
  have hBmem : rowB ∈ query_upcoming_singleNow dbWindow none 1 t := by
    rw [← heq]; simp
  have hAmem : rowA ∉ query_upcoming_singleNow dbWindow none 1 t := by
    rw [← heq]; decide
  have hCmem : rowC ∉ query_upcoming_singleNow dbWindow none 1 t := by
    rw [← heq]; decide
  unfold query_upcoming_singleNow at hBmem hAmem hCmem
  rw [mem_sortByStart, List.mem_filter] at hBmem hAmem hCmem
  rw [hIB] at hBmem
  rw [hIA] at hAmem
  rw [hIC] at hCmem
  simp only [matchesPlatform, Bool.true_and, decide_eq_true_eq] at hBmem hAmem hCmem
  have hB := hBmem.2
  have hA : ¬ (t < toSec ⟨2024, 1, 1, 11, 0, 0⟩ ∧
      toSec ⟨2024, 1, 1, 11, 0, 0⟩ < t + 86400 * 1) := by
    intro hcon
    exact hAmem ⟨by decide, hcon⟩
  have hC : ¬ (t < toSec ⟨2024, 1, 2, 1, 0, 0⟩ ∧
      toSec ⟨2024, 1, 2, 1, 0, 0⟩ < t + 86400 * 1) := by
    intro hcon
    exact hCmem ⟨by decide, hcon⟩
  have e1 : toSec ⟨2024, 1, 1, 11, 0, 0⟩ < toSec ⟨2024, 1, 1, 18, 0, 0⟩ := by decide
  have e2 : toSec ⟨2024, 1, 1, 18, 0, 0⟩ < toSec ⟨2024, 1, 2, 1, 0, 0⟩ := by decide
  have e3 : toSec ⟨2024, 1, 2, 1, 0, 0⟩ < toSec ⟨2024, 1, 1, 11, 0, 0⟩ + 86400 := by decide
  omega

/-- C4 amended: the query reads the clock twice — the cutoff from the first
read plus the horizon, the lower bound from the second read.  On rows whose
start strings are adapter renderings of representable instants, the result
holds exactly the stored rows (matching the platform filter) whose instant
lies strictly between the second read and (first read + horizon), and it is
ascending by start string; in particular, with "now" taken as the later
(second) read and `t1 ≤ t2`, nothing with instant at or before "now" and
nothing with instant beyond "now + horizon" is ever returned. -/
theorem c4_amended_two_reads (db : DB) (platform : Option String) (days : Nat)
    (t1 t2 : Nat)
    (hrows : ∀ r ∈ db.contests, ∃ n, n < maxAbs ∧ r.start_time = isoUTC (dtFromAbs n))
    (hreads : t1 ≤ t2)
    (hcur : t2 < maxAbs)
    (hcut : t1 + 86400 * days < maxAbs) :
    (∀ r ∈ get_upcoming_contests db platform days t1 t2,
      ∃ n, n < maxAbs ∧ r.start_time = isoUTC (dtFromAbs n) ∧
        t2 < n ∧ n < t1 + 86400 * days ∧ n < t2 + 86400 * days) ∧
    (∀ r ∈ db.contests, matchesPlatform platform r = true →
      ∀ n, n < maxAbs → r.start_time = isoUTC (dtFromAbs n) →
        t2 < n → n < t1 + 86400 * days →
        r ∈ get_upcoming_contests db platform days t1 t2) ∧
    AscByStart (get_upcoming_contests db platform days t1 t2) := by
  refine ⟨?_, ?_, ?_⟩
  · intro r hr
    rw [get_upcoming_contests, mem_sortByStart, List.mem_filter] at hr
    obtain ⟨hmem, hpred⟩ := hr
    obtain ⟨n, hn, hiso⟩ := hrows r hmem
    simp only [Bool.and_eq_true] at hpred
    obtain ⟨⟨hplat, hlow⟩, hhigh⟩ := hpred
    rw [hiso] at hlow hhigh
    have hl := (iso_abs_lt_iff hcur hn).mp hlow
    have hh := (iso_abs_lt_iff hn hcut).mp hhigh
    exact ⟨n, hn, hiso, hl, hh, by omega⟩
  · intro r hmem hplat n hn hiso hlow hhigh
    rw [get_upcoming_contests, mem_sortByStart, List.mem_filter]
    refine ⟨hmem, ?_⟩
    simp only [Bool.and_eq_true]
    refine ⟨⟨hplat, ?_⟩, ?_⟩
    · rw [hiso]
      exact (iso_abs_lt_iff hcur hn).mpr hlow
    · rw [hiso]
      exact (iso_abs_lt_iff hn hcut).mpr hhigh
  · exact asc_sortByStart _

/-- C4 amended, witness: on the three-row store, `rowB` is returned and the
result is ascending. -/
theorem c4_amended_witness :
    rowB ∈ get_upcoming_contests dbWindow none 1 (toSec ⟨2024, 1, 1, 0, 0, 0⟩)
      (toSec ⟨2024, 1, 1, 12, 0, 0⟩) ∧
    AscByStart (get_upcoming_contests dbWindow none 1 (toSec ⟨2024, 1, 1, 0, 0, 0⟩)
      (toSec ⟨2024, 1, 1, 12, 0, 0⟩)) := by
  have hrows : ∀ r ∈ dbWindow.contests, ∃ n, n < maxAbs ∧
      r.start_time = isoUTC (dtFromAbs n) := by
    intro r hr
    rcases List.mem_cons.mp hr with h | hr
    · exact ⟨toSec ⟨2024, 1, 1, 11, 0, 0⟩, by decide, by rw [h]; decide⟩
    rcases List.mem_cons.mp hr with h | hr
    · exact ⟨toSec ⟨2024, 1, 1, 18, 0, 0⟩, by decide, by rw [h]; decide⟩
    rcases List.mem_cons.mp hr with h | hr
    · exact ⟨toSec ⟨2024, 1, 2, 1, 0, 0⟩, by decide, by rw [h]; decide⟩
    · cases hr
  have h := c4_amended_two_reads dbWindow none 1 (toSec ⟨2024, 1, 1, 0, 0, 0⟩)
    (toSec ⟨2024, 1, 1, 12, 0, 0⟩) hrows (by decide) (by decide) (by decide)
  exact ⟨h.2.1 rowB (by decide) (by decide) (toSec ⟨2024, 1, 1, 18, 0, 0⟩)
    (by decide) (by decide) (by decide) (by decide), h.2.2⟩
